import Mathlib

/-!
Verification model of an RPN-calculator firmware core (Rust sources:
`decfix.rs`, `stack.rs`, `textbox.rs`, `command_mode.rs`, `main.rs`).

The embedding is shallow: Rust `i64` / `i8` / `u32` / `i128` values are
modelled as unbounded `Int` with the machine behaviour made explicit at
each operation site — `checked_*` operations return `Option`, operations
that wrap in release builds (`pow`, casts, `abs` at the minimum) are
modelled by explicit reductions modulo `2 ^ w`, and operations that panic
in both build profiles (integer division by zero, `expect` on `None`,
heapless `collect` overflow) are modelled by a dedicated `panic`
constructor of the result type `Res`.

Release-profile semantics (`overflow-checks = false`) is used for the
arithmetic that silently wraps; the spots where a debug build would panic
instead are noted in comments.
-/

set_option autoImplicit false
set_option maxRecDepth 100000

/-- Error taxonomy `CustomError` from `custom_error.rs` (payload-free model of
the `&'static str` payload of `OtherStr`). -/
inductive IntErrorKindClone where
  | Empty
  | InvalidDigit
  | PosOverflow
  | NegOverflow
  | Zero
deriving DecidableEq, Repr

/-- Clone of `display_interface::DisplayError` from `custom_error.rs`. -/
inductive DisplayErrorClone where
  | InvalidFormatError
  | BusWriteError
  | DCError
  | CSError
  | DataFormatNotImplemented
  | RSError
  | OutOfBoundsError
deriving DecidableEq, Repr

/-- Clone of `rp2040_hal::uart::ReadErrorType` from `custom_error.rs`. -/
inductive ReadErrorTypeClone where
  | Overrun
  | Break
  | Parity
  | Framing
deriving DecidableEq, Repr

/-- The closed error union `CustomError` of `custom_error.rs`. -/
inductive CustomError where
  | MathOverflow
  | ParseIntError (kind : IntErrorKindClone)
  | FormatError
  | BadInput
  | DisplayError (kind : DisplayErrorClone)
  | CapacityError
  | UartReadError (kind : ReadErrorTypeClone)
  | Unimplemented
  | Impossible
  | Cancelled
  | Other
  | OtherStr
deriving DecidableEq, Repr

/-- Result of running a fallible Rust function: `Ok`, `Err(CustomError)`, or a
panic (`expect` / `unwrap` failure, division by zero, collect overflow). -/
inductive Res (α : Type) where
  | ok (a : α)
  | err (e : CustomError)
  | panic
deriving DecidableEq, Repr

/-- Boolean test for the `err` constructor of `Res` (a Rust `Err(_)`; a panic
is not an `Err`). -/
def Res.isErr {α : Type} : Res α → Bool
  | .err _ => true
  | _ => false

/-- Smallest `i64` value. -/
def I64_MIN : Int := -(2 ^ 63)

/-- Largest `i64` value. -/
def I64_MAX : Int := 2 ^ 63 - 1

/-- Smallest `i128` value. -/
def I128_MIN : Int := -(2 ^ 127)

/-- Largest `i128` value. -/
def I128_MAX : Int := 2 ^ 127 - 1

/-- Reduce an integer to the two's-complement range of `i64` (the value a
wrapping 64-bit operation stores). -/
def wrap64 (x : Int) : Int := (x + 2 ^ 63) % 2 ^ 64 - 2 ^ 63

/-- Reduce an integer to the two's-complement range of `i8`. -/
def wrap8 (x : Int) : Int := (x + 2 ^ 7) % 2 ^ 8 - 2 ^ 7

/-- Rust `x as u32` on an 8-bit signed value (sign-extension then
reinterpretation): the representative of `x` modulo `2 ^ 32`. -/
def u32ofI8 (x : Int) : Nat := (x % 2 ^ 32).toNat

/-- Rust `x as usize` on an 8-bit signed value on a 64-bit-pointer-free RP2040:
`usize` is 32 bits there, but the subsequent uses (`len` comparisons, loop
counts) are modelled together via the modulo-`2 ^ 32` representative. -/
def usizeOfI8 (x : Int) : Nat := (x % 2 ^ 32).toNat

/-- Rust `i64::checked_add`. -/
def checkedAdd64 (x y : Int) : Option Int :=
  let s := x + y
  if s < I64_MIN ∨ I64_MAX < s then none else some s

/-- Rust `i64::checked_sub`. -/
def checkedSub64 (x y : Int) : Option Int :=
  let s := x - y
  if s < I64_MIN ∨ I64_MAX < s then none else some s

/-- Rust `i64::checked_mul`. -/
def checkedMul64 (x y : Int) : Option Int :=
  let p := x * y
  if p < I64_MIN ∨ I64_MAX < p then none else some p

/-- Rust `i8::checked_add`. -/
def checkedAdd8 (x y : Int) : Option Int :=
  let s := x + y
  if s < -(2 ^ 7) ∨ 2 ^ 7 - 1 < s then none else some s

/-- Rust `i8::checked_sub`. -/
def checkedSub8 (x y : Int) : Option Int :=
  let s := x - y
  if s < -(2 ^ 7) ∨ 2 ^ 7 - 1 < s then none else some s

/-- Rust `i128::checked_mul`. -/
def checkedMul128 (x y : Int) : Option Int :=
  let p := x * y
  if p < I128_MIN ∨ I128_MAX < p then none else some p

/-- Rust `i64::try_from` on an `i128`: `none` is the `TryFromIntError`
failure, which the `From` impl of `custom_error.rs` maps to `MathOverflow`. -/
def tryFromI64 (x : Int) : Option Int :=
  if x < I64_MIN ∨ I64_MAX < x then none else some x

/-- Rust `i8::abs` in a release build: wraps at the minimum value (a debug
build panics there instead of wrapping). -/
def absWrap8 (x : Int) : Int := if x = -(2 ^ 7) then x else x.natAbs

/-- Rust `i64::abs` in a release build: wraps at `i64::MIN` (a debug build
panics there). -/
def absWrap64 (x : Int) : Int := if x = I64_MIN then x else x.natAbs

/-- Loop body of Rust `i64::pow` (repeated squaring) with release-profile
wrapping multiplications. The `fuel` argument only drives structural
recursion; the caller passes `fuel = exp`, which dominates the number of
halvings, so the fuel never actually runs out for `exp ≥ 1`. -/
def wpowAux : Nat → Int → Int → Nat → Int
  | 0, _, acc, _ => acc
  | fuel + 1, base, acc, exp =>
    if exp % 2 = 1 then
      let acc2 := wrap64 (acc * base)
      if exp = 1 then acc2
      else wpowAux fuel (wrap64 (base * base)) acc2 (exp / 2)
    else wpowAux fuel (wrap64 (base * base)) acc (exp / 2)

/-- Rust `i64::pow` in a release build: wrapping on overflow (a debug build
panics on the first overflowing multiplication instead). -/
def wpow (base : Int) (exp : Nat) : Int :=
  if exp = 0 then 1 else wpowAux exp base 1 exp

/-- Truncation toward zero of the exact quotient `n / d`: the sign of the
quotient times the magnitude quotient. This is the rounding rule of Rust's
`/` on signed integers, stated independently of any division operator. -/
def truncTowardZero (n d : Int) : Int :=
  Int.sign n * Int.sign d * ((n.natAbs / d.natAbs : Nat) : Int)

/-- The application-wide default exponent (`DEFAULT_EXPONENT` in `decfix.rs`,
`DECFIX_EXPONENT` in `main.rs`). -/
def DEFAULT_EXPONENT : Int := -9

/-- Buffer size for padding fractional parts when parsing
(`PARSING_BUFFER_SIZE` in `decfix.rs`). -/
def PARSING_BUFFER_SIZE : Nat := 16

/-- The fixed-point decimal type of `decfix.rs`: logical value is
`value * 10 ^ exponent`, with `value : i64` and `exponent : i8`. -/
structure DecimalFixed where
  value : Int
  exponent : Int
deriving DecidableEq, Repr

/-- Model of `DecimalFixed::priv_add` (decfix.rs lines 276-311), release
profile. The `Ordering::Less` arm computes
`10_i64.pow((self.exponent - other.exponent) as u32)` with a negative
difference, which sign-extends to a huge `u32`; the release-mode `pow`
wraps to `0` there (`10 ^ k ≡ 0 (mod 2 ^ 64)` for `k ≥ 64`), while a debug
build would panic inside `pow`. -/
def DecimalFixed.priv_add (self other : DecimalFixed) : Res DecimalFixed :=
  if self.exponent = other.exponent then
    -- Ordering::Equal
    match checkedAdd64 self.value other.value with
    | none => .err .MathOverflow
    | some v => .ok ⟨v, self.exponent⟩
  else if other.exponent < self.exponent then
    -- Ordering::Greater
    let factor := wpow 10 (u32ofI8 (wrap8 (self.exponent - other.exponent)))
    match checkedMul64 self.value factor with
    | none => .err .MathOverflow
    | some adjusted =>
      match checkedAdd64 adjusted other.value with
      | none => .err .MathOverflow
      | some v => .ok ⟨v, other.exponent⟩
  else
    -- Ordering::Less: note the factor reuses `self.exponent - other.exponent`,
    -- which is negative in this arm.
    let factor := wpow 10 (u32ofI8 (wrap8 (self.exponent - other.exponent)))
    match checkedMul64 other.value factor with
    | none => .err .MathOverflow
    | some adjusted =>
      match checkedAdd64 self.value adjusted with
      | none => .err .MathOverflow
      | some v => .ok ⟨v, self.exponent⟩

/-- Model of `DecimalFixed::is_zero`. -/
def DecimalFixed.is_zero (self : DecimalFixed) : Bool := self.value = 0

/-- Model of `DecimalFixed::negate_in_place`, returning the updated value. -/
def DecimalFixed.negate_in_place (self : DecimalFixed) : Res DecimalFixed :=
  if self.is_zero then .ok self
  else if self.value = I64_MIN then .err .MathOverflow
  else .ok ⟨-self.value, self.exponent⟩

/-- Model of `DecimalFixed::addition`. -/
def DecimalFixed.addition (self other : DecimalFixed) : Res DecimalFixed :=
  self.priv_add other

/-- Model of `DecimalFixed::subtract` (negate the second operand in place,
then `priv_add`). -/
def DecimalFixed.subtract (self other : DecimalFixed) : Res DecimalFixed :=
  match other.negate_in_place with
  | .ok negated => self.priv_add negated
  | other2 => other2

/-- Model of `DecimalFixed::priv_mul` (decfix.rs lines 313-344), release
profile. With `keep_exponent` and a negative exponent the 128-bit
intermediate is divided by `10 ^ |exp|` computed in `i64`, which wraps for
`|exp| ≥ 19` and becomes `0` for `|exp| ∈ [64, 127]` (and for the wrapped
`abs` of `-128`), in which case the `i128` division panics. -/
def DecimalFixed.priv_mul (self other : DecimalFixed) (keep_exponent : Bool) :
    Res DecimalFixed :=
  if !keep_exponent then
    match checkedMul64 self.value other.value with
    | none => .err .MathOverflow
    | some v =>
      match checkedAdd8 self.exponent other.exponent with
      | none => .err .MathOverflow
      | some e => .ok ⟨v, e⟩
  else if self.exponent ≠ other.exponent then .err .Unimplemented
  else
    match checkedMul128 self.value other.value with
    | none => .err .MathOverflow
    | some scaled =>
      let scale_factor := wpow 10 (u32ofI8 (absWrap8 self.exponent))
      if 0 ≤ self.exponent then
        match checkedMul128 scaled scale_factor with
        | none => .err .MathOverflow
        | some ev =>
          match tryFromI64 ev with
          | none => .err .MathOverflow
          | some v => .ok ⟨v, self.exponent⟩
      else
        if scale_factor = 0 then .panic
        else
          match tryFromI64 (Int.tdiv scaled scale_factor) with
          | none => .err .MathOverflow
          | some v => .ok ⟨v, self.exponent⟩

/-- Model of `DecimalFixed::priv_div` (decfix.rs lines 346-374), release
profile. The division-by-zero check on `other.value` comes first, before
either the `keep_exponent` split or the exponent-equality check. -/
def DecimalFixed.priv_div (self other : DecimalFixed) (keep_exponent : Bool) :
    Res DecimalFixed :=
  if other.value = 0 then .err .BadInput
  else if !keep_exponent then
    -- `self.value / other.value` panics on `i64::MIN / -1` in both profiles.
    if self.value = I64_MIN ∧ other.value = -1 then .panic
    else
      match checkedSub8 self.exponent other.exponent with
      | none => .err .MathOverflow
      | some e => .ok ⟨Int.tdiv self.value other.value, e⟩
  else if self.exponent ≠ other.exponent then .err .Unimplemented
  else
    let scale_factor := wpow 10 (u32ofI8 (absWrap8 self.exponent))
    if 0 ≤ self.exponent then
      if scale_factor = 0 then .panic
      else
        match tryFromI64 (Int.tdiv (Int.tdiv self.value scale_factor) other.value) with
        | none => .err .MathOverflow
        | some v => .ok ⟨v, self.exponent⟩
    else
      match checkedMul128 self.value scale_factor with
      | none => .err .MathOverflow
      | some scaled =>
        match tryFromI64 (Int.tdiv scaled other.value) with
        | none => .err .MathOverflow
        | some v => .ok ⟨v, self.exponent⟩

/-- Model of `DecimalFixed::multiply` (keep-exponent variant). -/
def DecimalFixed.multiply (self other : DecimalFixed) : Res DecimalFixed :=
  self.priv_mul other true

/-- Model of `DecimalFixed::multiply_no_keep_exp`. -/
def DecimalFixed.multiply_no_keep_exp (self other : DecimalFixed) : Res DecimalFixed :=
  self.priv_mul other false

/-- Model of `DecimalFixed::divide` (keep-exponent variant). -/
def DecimalFixed.divide (self other : DecimalFixed) : Res DecimalFixed :=
  self.priv_div other true

/-- Model of `DecimalFixed::divide_no_keep_exp`. -/
def DecimalFixed.divide_no_keep_exp (self other : DecimalFixed) : Res DecimalFixed :=
  self.priv_div other false


/-! Parsing: `DecimalFixed::parse_static_exp` (decfix.rs lines 159-211) and the
pieces of the Rust standard library and heapless it relies on. Strings are
modelled as `List Char`; byte-sensitive operations (`str::len`, byte slicing)
go through the UTF-8 byte length of each character. -/

/-- Number of UTF-8 bytes of one character. -/
def utf8CharLen (c : Char) : Nat :=
  if c.toNat < 0x80 then 1
  else if c.toNat < 0x800 then 2
  else if c.toNat < 0x10000 then 3
  else 4

/-- Rust `str::len`: the UTF-8 byte length. -/
def utf8Length (s : List Char) : Nat := (s.map utf8CharLen).sum

/-- Rust `str::is_ascii`. -/
def isAsciiStr (s : List Char) : Bool := s.all (fun c => c.toNat < 0x80)

/-- Rust byte slicing `&s[..n]`: the characters covered by the first `n`
bytes; panics when `n` is not a character boundary (or exceeds the
length). -/
def byteTake : Nat → List Char → Res (List Char)
  | 0, _ => .ok []
  | _ + 1, [] => .panic
  | n + 1, c :: cs =>
    if utf8CharLen c ≤ n + 1 then
      match byteTake (n + 1 - utf8CharLen c) cs with
      | .ok l => .ok (c :: l)
      | other => other
    else .panic

/-- Rust `s.splitn(2, sep)` as used in `parse_static_exp`: the part before the
first separator, and — when a separator occurs — everything after it. -/
def splitOnce (sep : Char) : List Char → List Char × Option (List Char)
  | [] => ([], none)
  | c :: cs =>
    if c = sep then ([], some cs)
    else
      let r := splitOnce sep cs
      (c :: r.1, r.2)

/-- Positive-sign digit loop of Rust `<i64 as FromStr>::from_str`: scans left
to right, failing on the first non-digit with `InvalidDigit` and on the
first accumulator leaving the `i64` range with `PosOverflow`. -/
def parseDigitsPos : Int → List Char → Except IntErrorKindClone Int
  | acc, [] => .ok acc
  | acc, c :: cs =>
    if c.isDigit then
      if acc * 10 + ((c.toNat - 48 : Nat) : Int) < I64_MIN ∨
          I64_MAX < acc * 10 + ((c.toNat - 48 : Nat) : Int) then
        .error .PosOverflow
      else parseDigitsPos (acc * 10 + ((c.toNat - 48 : Nat) : Int)) cs
    else .error .InvalidDigit

/-- Negative-sign digit loop of Rust `<i64 as FromStr>::from_str`: like the
positive loop but subtracting each digit, failing with `NegOverflow`. -/
def parseDigitsNeg : Int → List Char → Except IntErrorKindClone Int
  | acc, [] => .ok acc
  | acc, c :: cs =>
    if c.isDigit then
      if acc * 10 - ((c.toNat - 48 : Nat) : Int) < I64_MIN ∨
          I64_MAX < acc * 10 - ((c.toNat - 48 : Nat) : Int) then
        .error .NegOverflow
      else parseDigitsNeg (acc * 10 - ((c.toNat - 48 : Nat) : Int)) cs
    else .error .InvalidDigit

/-- Rust `str::parse::<i64>()`: empty input is `Empty`, a bare sign is
`InvalidDigit`, otherwise the digit loop runs on the unsigned rest. -/
def parseI64 (s : List Char) : Except IntErrorKindClone Int :=
  match s with
  | [] => .error .Empty
  | c :: cs =>
    if c = '+' then
      if cs = [] then .error .InvalidDigit else parseDigitsPos 0 cs
    else if c = '-' then
      if cs = [] then .error .InvalidDigit else parseDigitsNeg 0 cs
    else parseDigitsPos 0 (c :: cs)

/-- Fractional-part normalisation of `parse_static_exp`: compare the byte
length of the fractional text with `minus_exp` and either keep it, byte-slice
it down, or pad it with zeroes through a `heapless::String<16>` — whose
`from_str` and `push` fail (error type `()`, converted to
`CustomError::Other`) when the 16-byte buffer would overflow. -/
def procFrac (frac : List Char) (minusExp : Nat) : Res (List Char) :=
  if utf8Length frac = minusExp then .ok frac
  else if minusExp < utf8Length frac then byteTake minusExp frac
  else
    if PARSING_BUFFER_SIZE < utf8Length frac then .err .Other
    else if PARSING_BUFFER_SIZE < minusExp then .err .Other
    else .ok (frac ++ List.replicate (minusExp - utf8Length frac) '0')

/-- Model of `DecimalFixed::parse_static_exp` (decfix.rs lines 159-211),
release profile. `minus_exp` is `-exp as usize` (with the `i8` negation
wrapping at `-128`), the whole part is parsed and scaled by
`10_i64.pow(minus_exp as u32)` with checked multiplication, and the
processed fractional part is added to (or, for a negative scaled whole
part, subtracted from) the value with checked arithmetic. -/
def DecimalFixed.parse_static_exp (s : List Char) (exp : Option Int) : Res DecimalFixed :=
  let exp := exp.getD DEFAULT_EXPONENT
  if 0 ≤ exp then .err .Unimplemented
  else if s = [] then .err .BadInput
  else
    let minusExp : Nat := (wrap8 (-exp) % 2 ^ 32).toNat
    let parts := splitOnce '.' s
    match parseI64 parts.1 with
    | .error k => .err (.ParseIntError k)
    | .ok whole =>
      match checkedMul64 whole (wpow 10 (minusExp % 2 ^ 32)) with
      | none => .err .MathOverflow
      | some v0 =>
        match parts.2 with
        | none => .ok ⟨v0, exp⟩
        | some frac =>
          if frac = [] then .ok ⟨v0, exp⟩
          else
            match procFrac frac minusExp with
            | .err e => .err e
            | .panic => .panic
            | .ok processed =>
              match parseI64 processed with
              | .error k => .err (.ParseIntError k)
              | .ok fracVal =>
                if 0 ≤ v0 then
                  match checkedAdd64 v0 fracVal with
                  | none => .err .MathOverflow
                  | some v => .ok ⟨v, exp⟩
                else
                  match checkedSub64 v0 fracVal with
                  | none => .err .MathOverflow
                  | some v => .ok ⟨v, exp⟩

/-! Formatting: the `Display` impl for `DecimalFixed` (decfix.rs lines
24-77). -/

/-- Decimal digits of a natural number, most significant first (`fuel`-driven
structural recursion; `fuel = n + 1` always suffices). -/
def natToCharsAux : Nat → Nat → List Char
  | 0, _ => []
  | fuel + 1, n =>
    if n < 10 then [Char.ofNat (48 + n)]
    else natToCharsAux fuel (n / 10) ++ [Char.ofNat (48 + n % 10)]

/-- Rust `{}` formatting of a natural number. -/
def natToChars (n : Nat) : List Char := natToCharsAux (n + 1) n

/-- Rust `{}` formatting of a signed integer. -/
def intToChars (i : Int) : List Char :=
  if i < 0 then '-' :: natToChars i.natAbs else natToChars i.toNat

/-- The trailing-zero-stripping loop of the `Display` impl: divide by 10
while the remainder `% 10` is zero, counting the removed digits. The loop
runs on a nonzero fractional part, so the fuel `|n| + 1` suffices. -/
def stripZerosAux : Nat → Int → Nat → Int × Nat
  | 0, n, removed => (n, removed)
  | fuel + 1, n, removed =>
    if Int.tmod n 10 = 0 then stripZerosAux fuel (Int.tdiv n 10) (removed + 1)
    else (n, removed)

/-- Strip trailing decimal zeros, returning the stripped value and the number
of digits removed. -/
def stripZeros (n : Int) : Int × Nat := stripZerosAux (n.natAbs + 1) n 0

/-- Left-pad a character list with zeros to the given width (the `{:0>width$}`
format specifier). -/
def padZeros (width : Nat) (l : List Char) : List Char :=
  List.replicate (width - l.length) '0' ++ l

/-- Model of the `Display` impl for `DecimalFixed` (decfix.rs lines 24-77),
release profile: zero prints `"0"`; zero exponent prints the value verbatim;
a positive exponent appends that many zeros; a negative exponent splits the
absolute value by `10 ^ (-exponent)` (computed by the wrapping release
`pow`, hence `.panic` on the division when that wraps to zero, i.e. for
exponents `≤ -64`) and prints the fractional part with trailing zeros
stripped. -/
def fmtDecimalFixed (d : DecimalFixed) : Res (List Char) :=
  if d.value = 0 then .ok ['0']
  else if d.exponent = 0 then .ok (intToChars d.value)
  else if 0 < d.exponent then
    .ok (intToChars d.value ++ List.replicate d.exponent.toNat '0')
  else
    let sign : List Char := if d.value < 0 then ['-'] else []
    let v := absWrap64 d.value
    let pow := wpow 10 (u32ofI8 (wrap8 (-d.exponent)))
    if pow = 0 then .panic
    else
      let whole := Int.tdiv v pow
      let frac := Int.tmod v pow
      if frac = 0 then .ok (sign ++ intToChars whole)
      else
        let sr := stripZeros frac
        let width := (wrap8 (-d.exponent) % 2 ^ 32).toNat - sr.2
        .ok (sign ++ intToChars whole ++ ['.'] ++ padZeros width (intToChars sr.1))

/-! Stack: `CustomStack` from `stack.rs`. The display plumbing is external;
the data component is the heapless `Vec<T, MAX_STACK_SIZE>`, modelled as a
`List` whose last element is the top of the stack (Rust `Vec::push`
appends). -/

/-- Maximum size of the stack (`MAX_STACK_SIZE` in `stack.rs`). -/
def MAX_STACK_SIZE : Nat := 256

/-- Maximum number of elements to pop at once (`MAX_MULTIPOP_SIZE`). -/
def MAX_MULTIPOP_SIZE : Nat := 16

/-- Model of `CustomStack::push` (stack.rs lines 336-342): the inner heapless
`Vec::push` fails exactly when the vector is full, and the wrapper turns
that into a bare `CustomError::CapacityError`, dropping the rejected value
(its doc comment claims the error carries the value, but the error type
has no payload). The returned pair is (error, stack afterwards). -/
def CustomStack.push {α : Type} (s : List α) (v : α) : Option CustomError × List α :=
  if MAX_STACK_SIZE ≤ s.length then (some .CapacityError, s) else (none, s ++ [v])

/-- Model of `CustomStack::pop` (stack.rs lines 366-373): removes and returns
the last (top) element, `none` on an empty stack. -/
def CustomStack.pop {α : Type} (s : List α) : Option α × List α :=
  match s.getLast? with
  | none => (none, s)
  | some v => (some v, s.dropLast)

/-- Result of `CustomStack::multipop`. -/
inductive MultipopResult (α : Type) where
  | noValue
  | panicked
  | popped (vals : List α) (rest : List α)
deriving DecidableEq, Repr

/-- Model of `CustomStack::multipop` (stack.rs lines 383-392): `None` on an
empty stack; otherwise `drain(len.saturating_sub(n)..)` removes the top
`min(n, len)` elements and yields them front-to-back (topmost last), and
collecting them into the heapless `Vec<T, MAX_MULTIPOP_SIZE>` panics when
more than `MAX_MULTIPOP_SIZE` elements are drained. -/
def CustomStack.multipop {α : Type} (s : List α) (n : Nat) : MultipopResult α :=
  if s.isEmpty then .noValue
  else
    let start := s.length - n
    let vals := s.drop start
    if MAX_MULTIPOP_SIZE < vals.length then .panicked
    else .popped vals (s.take start)

/-! Textbox: `CustomTextbox` from `textbox.rs`; the text is the heapless
`String<TEXT_BUFFER_SIZE>`, modelled as a `List Char`. -/

/-- The character-popping fallback loop of `CustomTextbox::backspace`: pop
the last character `count` times; `.pop().expect(...)` panics when the
text runs out early. -/
def popChars : List Char → Nat → Res (List Char)
  | text, 0 => .ok text
  | text, n + 1 =>
    match text.getLast? with
    | none => .panic
    | some _ => popChars text.dropLast n

/-- Model of `CustomTextbox::backspace` (textbox.rs lines 304-322): the guard
compares the BYTE length (`str::len`) with `count`; ASCII-only text is
byte-truncated (equivalently: drop the last `count` characters), other text
falls back to popping characters one at a time, which can exhaust the text
and panic on the `expect`. -/
def CustomTextbox.backspace (text : List Char) (count : Nat) : Res (List Char) :=
  if utf8Length text < count then .err .BadInput
  else if isAsciiStr text then .ok (text.take (text.length - count))
  else popChars text count

/-! Entry-mode binary operators: the `'+' | '-' | '*' | '/'` arm of the main
loop (main.rs lines 294-416), in the case of an empty line buffer (the
`parse_textbox` branch is skipped by the `!textbox.is_empty()` guard). -/

/-- Outcome of one entry-mode binary-operator event: a successful push, a
recoverable error (`disp_error` then `continue`, with the stack as it then
stands), a grave error (`disp_grave_error`, which resets), or a panic from
inside the arithmetic. -/
inductive EntryOpResult where
  | pushedOk (stack : List DecimalFixed)
  | recoverable (stack : List DecimalFixed)
  | grave
  | panicked
deriving DecidableEq, Repr

/-- Model of the entry-mode binary-operator handler (main.rs lines 294-416)
with an empty line buffer: pop `b` then `a`; with both present compute
`a OP b` and push the result; with fewer the `(None, Some(_)) | (None,
None)` arm redraws and shows the recoverable error indicator WITHOUT
restoring the popped operand (the code carries a TODO noting the missing
restore). -/
def entryBinaryOp (op : Char) (s : List DecimalFixed) : EntryOpResult :=
  let pb := CustomStack.pop s
  let pa := CustomStack.pop pb.2
  match pa.1, pb.1 with
  | some a, some b =>
    let c : Res DecimalFixed :=
      if op = '+' then a.addition b
      else if op = '-' then a.subtract b
      else if op = '*' then a.multiply b
      else if op = '/' then a.divide b
      else .panic
    match c with
    | .err _ => .recoverable pa.2
    | .panic => .panicked
    | .ok v =>
      match CustomStack.push pa.2 v with
      | (none, s3) => .pushedOk s3
      | (some _, _) => .grave
  | none, some _ => .recoverable pa.2
  | none, none => .recoverable pa.2
  | some _, none => .grave

/-! Command-mode `swap` (command_mode.rs lines 237-273). -/

/-- Model of the `"s" | "swap"` command: pop `b` (top) then `a`; with both
present push `b` then `a` back (both pushes are evaluated — the source uses
the non-short-circuiting `|`); with only one present push it back and fail
with `BadInput`; with none fail with `BadInput`. The returned pair is
(error, stack afterwards). -/
def swapTopTwo {α : Type} (s : List α) : Option CustomError × List α :=
  let pb := CustomStack.pop s
  let pa := CustomStack.pop pb.2
  match pa.1, pb.1 with
  | some a, some b =>
    let r1 := CustomStack.push pa.2 b
    let r2 := CustomStack.push r1.2 a
    if r1.1.isSome || r2.1.isSome then (some .Impossible, r2.2) else (none, r2.2)
  | none, some b =>
    let r1 := CustomStack.push pa.2 b
    if r1.1.isSome then (some .Impossible, r1.2) else (some .BadInput, r1.2)
  | none, none => (some .BadInput, pa.2)
  | some _, none => (some .Impossible, pa.2)


/-! Claim theorems. -/

/-- C1. The claim states that `a.addition(b)` always either returns the exact
sum at the smaller exponent or fails with the overflow error, in particular
when `a`'s exponent is strictly smaller than `b`'s. The code violates this:
in the `Ordering::Less` arm `priv_add` computes
`10_i64.pow((self.exponent - other.exponent) as u32)` with a NEGATIVE
difference, whose `u32` cast is huge, so the release-mode `pow` wraps to
`0` and the other operand is multiplied away. At `a = 0.1` (`⟨1, -1⟩`) and
`b = 1` (`⟨1, 0⟩`) the code returns `0.1` unchanged instead of the exact
sum `1.1` (`⟨11, -1⟩`); a debug build panics inside `pow` instead. -/
theorem c1_priv_add_smaller_exponent_drops_operand :
    DecimalFixed.priv_add ⟨1, -1⟩ ⟨1, 0⟩ = .ok ⟨1, -1⟩ ∧
    (Res.ok (DecimalFixed.mk 1 (-1)) ≠ .ok ⟨11, -1⟩) := by
  constructor
  · decide
  · decide

/-- C2. The claim states that an entry-mode binary operator applied with
exactly one stack element (and an empty line buffer) restores the popped
operand. The code's `(None, Some(_))` arm only redraws and shows the error
indicator; the popped operand is not pushed back (the source carries a TODO
for exactly this), so a one-element stack ends up empty. -/
theorem c2_entry_op_insufficient_operand_lost :
    entryBinaryOp '+' [⟨5000000000, -9⟩] = .recoverable [] ∧
    ([] : List DecimalFixed) ≠ [⟨5000000000, -9⟩] := by
  constructor
  · decide
  · decide

/-- C3. The claim states the parse/format round trip yields the canonical
form with the correct sign. For `"-0.5"` the whole part `"-0"` parses to
`0`, the `value >= 0` test then ADDS the fractional contribution, and the
sign is lost: the result is `+0.5` (`⟨500000000, -9⟩`), which formats as
`"0.5"`, not `"-0.5"`. (The in-scope example `"3.14"` does round-trip.) -/
theorem c3_parse_negative_zero_loses_sign :
    DecimalFixed.parse_static_exp ['-', '0', '.', '5'] (some (-9)) =
      .ok ⟨500000000, -9⟩ ∧
    fmtDecimalFixed ⟨500000000, -9⟩ = .ok ['0', '.', '5'] ∧
    (['0', '.', '5'] : List Char) ≠ ['-', '0', '.', '5'] ∧
    DecimalFixed.parse_static_exp ['3', '.', '1', '4'] (some (-9)) =
      .ok ⟨3140000000, -9⟩ ∧
    fmtDecimalFixed ⟨3140000000, -9⟩ = .ok ['3', '.', '1', '4'] := by
  refine ⟨by decide, by decide, by decide, by decide, by decide⟩

/-- C5. The claim states that a push onto a full stack returns the rejected
value unmodified to the caller. The code maps the heapless `Err(value)`
to the payload-free `CustomError::CapacityError` (contradicting the
function's own doc comment): the result of a failed push is one and the
same for two different rejected values, so the rejected value is not
returned. Length and contents are unchanged, as also claimed. -/
theorem c5_push_full_drops_value :
    CustomStack.push (List.replicate 256 (DecimalFixed.mk 0 (-9))) ⟨1, -9⟩ =
      (some .CapacityError, List.replicate 256 (DecimalFixed.mk 0 (-9))) ∧
    CustomStack.push (List.replicate 256 (DecimalFixed.mk 0 (-9))) ⟨1, -9⟩ =
      CustomStack.push (List.replicate 256 (DecimalFixed.mk 0 (-9))) ⟨2, -9⟩ ∧
    (DecimalFixed.mk 1 (-9)) ≠ ⟨2, -9⟩ := by
  refine ⟨by decide, by decide, by decide⟩

/-- C6. Dividing by a zero-valued operand fails with `BadInput` (the distinct
zero-division kind), never with `MathOverflow`, for both the keep-exponent
and no-keep-exponent variants and regardless of either operand's value or
exponent: the `other.value == 0` check is the first statement of
`priv_div`. -/
theorem c6_divide_by_zero_bad_input (a b : DecimalFixed) (keep : Bool)
    (h : b.value = 0) : a.priv_div b keep = .err .BadInput := by
  simp [DecimalFixed.priv_div, h]

/-- C6 witness: `5 / 0` at the default exponent, both variants. -/
theorem c6_divide_by_zero_bad_input_witness :
    DecimalFixed.priv_div ⟨5000000000, -9⟩ ⟨0, -9⟩ true = .err .BadInput ∧
    DecimalFixed.priv_div ⟨5000000000, -9⟩ ⟨0, -9⟩ false = .err .BadInput :=
  ⟨c6_divide_by_zero_bad_input ⟨5000000000, -9⟩ ⟨0, -9⟩ true rfl,
   c6_divide_by_zero_bad_input ⟨5000000000, -9⟩ ⟨0, -9⟩ false rfl⟩

/-- C8. The claim states `backspace(n)` fails with `BadInput` exactly when the
buffer holds fewer than `n` CHARACTERS and otherwise succeeds without
panicking, including for multi-byte characters. The guard in the code
compares the BYTE length: for the one-character buffer `"é"` (2 bytes) and
`n = 2` the guard passes, the non-ASCII fallback pops twice, and the second
`.pop().expect("We already checked, this shouldn't be possible!")` panics
on `None` — contradicting both the claim and the code's own expect
message. -/
theorem c8_backspace_multibyte_panics :
    (['é'] : List Char).length < 2 ∧
    CustomTextbox.backspace ['é'] 2 = .panic := by
  constructor
  · decide
  · decide

/-- Inversion for `checkedMul128`: a successful checked multiplication returns
the exact product. -/
theorem checkedMul128_eq_some {x y p : Int} (h : checkedMul128 x y = some p) : p = x * y := by
  by_cases hc : x * y < I128_MIN ∨ I128_MAX < x * y
  · exact absurd h (by simp [checkedMul128, hc])
  · have h2 : checkedMul128 x y = some (x * y) := by simp [checkedMul128, hc]
    rw [h2] at h
    exact (Option.some.inj h).symm

/-- Inversion for `tryFromI64`: a successful conversion is the identity. -/
theorem tryFromI64_eq_some {x v : Int} (h : tryFromI64 x = some v) : v = x := by
  by_cases hc : x < I64_MIN ∨ I64_MAX < x
  · exact absurd h (by simp [tryFromI64, hc])
  · have h2 : tryFromI64 x = some x := by simp [tryFromI64, hc]
    rw [h2] at h
    exact (Option.some.inj h).symm

/-- The truncating integer division `Int.tdiv` (Rust `/` on signed integers)
agrees with the sign-times-magnitude-quotient description of truncation
toward zero. -/
theorem tdiv_eq_truncTowardZero (n d : Int) : Int.tdiv n d = truncTowardZero n d := by
  unfold truncTowardZero
  cases n with
  | ofNat m =>
    cases d with
    | ofNat k =>
      cases m with
      | zero =>
        show Int.ofNat (0 / k) = Int.sign (Int.ofNat 0) * _ * _
        rw [Nat.zero_div]
        rw [show Int.sign (Int.ofNat 0) = 0 from rfl]
        rw [Int.zero_mul, Int.zero_mul]
        rfl
      | succ m2 =>
        cases k with
        | zero =>
          show Int.ofNat ((m2 + 1) / 0) = _ * Int.sign (Int.ofNat 0) * _
          rw [Nat.div_zero]
          rw [show Int.sign (Int.ofNat 0) = 0 from rfl]
          rw [Int.mul_zero, Int.zero_mul]
          rfl
        | succ k2 =>
          show Int.ofNat ((m2 + 1) / (k2 + 1)) =
            Int.sign (Int.ofNat (m2 + 1)) * Int.sign (Int.ofNat (k2 + 1)) *
              Int.ofNat ((m2 + 1) / (k2 + 1))
          rw [show Int.sign (Int.ofNat (m2 + 1)) = 1 from rfl,
              show Int.sign (Int.ofNat (k2 + 1)) = 1 from rfl,
              Int.one_mul, Int.one_mul]
    | negSucc k =>
      cases m with
      | zero =>
        show -Int.ofNat (0 / (k + 1)) = Int.sign (Int.ofNat 0) * _ * _
        rw [Nat.zero_div]
        rw [show Int.sign (Int.ofNat 0) = 0 from rfl]
        rw [Int.zero_mul, Int.zero_mul]
        rfl
      | succ m2 =>
        show -Int.ofNat ((m2 + 1) / (k + 1)) =
          Int.sign (Int.ofNat (m2 + 1)) * Int.sign (Int.negSucc k) *
            Int.ofNat ((m2 + 1) / (k + 1))
        rw [show Int.sign (Int.ofNat (m2 + 1)) = 1 from rfl,
            show Int.sign (Int.negSucc k) = -1 from rfl,
            Int.one_mul, neg_one_mul]
  | negSucc m =>
    cases d with
    | ofNat k =>
      cases k with
      | zero =>
        show -Int.ofNat ((m + 1) / 0) = _ * Int.sign (Int.ofNat 0) * _
        rw [Nat.div_zero]
        rw [show Int.sign (Int.ofNat 0) = 0 from rfl]
        rw [Int.mul_zero, Int.zero_mul]
        rfl
      | succ k2 =>
        show -Int.ofNat ((m + 1) / (k2 + 1)) =
          Int.sign (Int.negSucc m) * Int.sign (Int.ofNat (k2 + 1)) *
            Int.ofNat ((m + 1) / (k2 + 1))
        rw [show Int.sign (Int.negSucc m) = -1 from rfl,
            show Int.sign (Int.ofNat (k2 + 1)) = 1 from rfl,
            Int.mul_one, neg_one_mul]
    | negSucc k =>
      show Int.ofNat ((m + 1) / (k + 1)) =
        Int.sign (Int.negSucc m) * Int.sign (Int.negSucc k) *
          Int.ofNat ((m + 1) / (k + 1))
      rw [show Int.sign (Int.negSucc m) = -1 from rfl,
          show Int.sign (Int.negSucc k) = -1 from rfl]
      rw [show ((-1 : Int) * -1) = 1 from rfl, Int.one_mul]

/-- Evaluation of the wrapping power for small exponents: through `10 ^ 18`
the `i64` computation does not overflow, so the wrapping `pow` is exact. -/
theorem wpow_ten_small : ∀ k : Nat, k < 19 → wpow 10 k = 10 ^ k := by decide

/-- C4 counterexample. The claim says `multipop(n)` returns the elements
ordered topmost FIRST; the code (and its own doc comment) return them
topmost LAST: on the stack `[1e-9, 2e-9]` (top = `2e-9`), `multipop(2)`
yields `[1e-9, 2e-9]`, not the claimed `[2e-9, 1e-9]`. Moreover the claim
says no `n` causes an error, but draining more than `MAX_MULTIPOP_SIZE`
(16) elements panics in the heapless `collect`: `multipop(17)` on a
17-element stack panics. -/
theorem c4_multipop_order_counterexample :
    CustomStack.multipop [DecimalFixed.mk 1 (-9), ⟨2, -9⟩] 2 =
      .popped [⟨1, -9⟩, ⟨2, -9⟩] [] ∧
    ([DecimalFixed.mk 1 (-9), ⟨2, -9⟩] : List DecimalFixed) ≠ [⟨2, -9⟩, ⟨1, -9⟩] ∧
    CustomStack.multipop (List.replicate 17 (DecimalFixed.mk 0 (-9))) 17 = .panicked := by
  refine ⟨by decide, by decide, by decide⟩

/-- C4 as amended: on an empty stack `multipop` returns "no value"; on a
non-empty stack, whenever `min n length ≤ MAX_MULTIPOP_SIZE = 16`, it
removes and returns exactly `min n length` elements without error even when
`n` exceeds the stack length — ordered bottom-to-top, i.e. the returned
elements are the final (topmost) segment of the stack in stack order with
the topmost element LAST, the remainder staying behind. -/
theorem c4_multipop_amended (s : List DecimalFixed) (n : Nat) :
    (s = [] → CustomStack.multipop s n = .noValue) ∧
    (s ≠ [] → min n s.length ≤ MAX_MULTIPOP_SIZE →
      ∃ vals rest, CustomStack.multipop s n = .popped vals rest ∧
        vals.length = min n s.length ∧ rest ++ vals = s) := by
  constructor
  · intro h
    subst h
    rfl
  · intro hne hle
    have hlen : (s.drop (s.length - n)).length = min n s.length := by
      simp [List.length_drop]
      omega
    refine ⟨s.drop (s.length - n), s.take (s.length - n), ?_, hlen, List.take_append_drop _ _⟩
    unfold CustomStack.multipop
    have hempty : s.isEmpty = false := by
      simp [List.isEmpty_iff]
      exact hne
    rw [hempty]
    simp only [Bool.false_eq_true, if_false]
    have hnot : ¬ (MAX_MULTIPOP_SIZE < (s.drop (s.length - n)).length) := by
      rw [hlen]
      omega
    rw [if_neg hnot]

/-- C4 witness: `multipop 5` on the two-element stack `[1e-9, 2e-9]`. -/
theorem c4_multipop_amended_witness :
    ∃ vals rest,
      CustomStack.multipop [DecimalFixed.mk 1 (-9), ⟨2, -9⟩] 5 = .popped vals rest ∧
      vals.length = min 5 ([DecimalFixed.mk 1 (-9), ⟨2, -9⟩] : List DecimalFixed).length ∧
      rest ++ vals = [DecimalFixed.mk 1 (-9), ⟨2, -9⟩] :=
  (c4_multipop_amended [⟨1, -9⟩, ⟨2, -9⟩] 5).2 (by decide) (by decide)

/-- C9. The `swap` command pops `b` (top) and `a` (next). With at least two
elements it pushes `b` then `a`, leaving the top two reversed and every
other element (hence the length) unchanged; on a one-element stack it fails
with `BadInput` with the single element pushed back (no net change); on an
empty stack it fails with `BadInput` and no change. The capacity hypothesis
is the stack invariant `len ≤ MAX_STACK_SIZE`, under which the pushes of
the popped elements cannot fail. -/
theorem c9_swap_spec :
    (∀ (rest : List DecimalFixed) (a b : DecimalFixed),
        rest.length + 2 ≤ MAX_STACK_SIZE →
        swapTopTwo (rest ++ [a, b]) = (none, rest ++ [b, a])) ∧
    (∀ x : DecimalFixed, swapTopTwo [x] = (some .BadInput, [x])) ∧
    swapTopTwo ([] : List DecimalFixed) = (some .BadInput, []) := by
  refine ⟨?_, ?_, by decide⟩
  · intro rest a b h
    have e1 : rest ++ [a, b] = (rest ++ [a]) ++ [b] := by simp
    rw [e1]
    have hp1 : ¬ (MAX_STACK_SIZE ≤ rest.length) := by
      unfold MAX_STACK_SIZE at h ⊢
      omega
    have hp2 : ¬ (MAX_STACK_SIZE ≤ rest.length + 1) := by
      unfold MAX_STACK_SIZE at h ⊢
      omega
    simp [swapTopTwo, CustomStack.pop, CustomStack.push, List.getLast?_concat,
          List.dropLast_concat, hp1, hp2]
  · intro x
    simp [swapTopTwo, CustomStack.pop, CustomStack.push, MAX_STACK_SIZE]

/-- C9 witness: swapping the two-element stack `[1e-9, 2e-9]` (top `2e-9`). -/
theorem c9_swap_spec_witness :
    swapTopTwo [DecimalFixed.mk 1 (-9), ⟨2, -9⟩] = (none, [⟨2, -9⟩, ⟨1, -9⟩]) :=
  c9_swap_spec.1 [] ⟨1, -9⟩ ⟨2, -9⟩ (by decide)

/-- C10 counterexample. For the equal negative exponent `-19` the scale
factor `10_i64.pow(19)` wraps (release profile), so the keep-exponent
multiply is NOT a truncation toward zero of the exact result: with both
operands `⟨10^10, -19⟩` the exact product scaled back to exponent `-19`
truncates to `10`, but the code returns `-11`. -/
theorem c10_rounding_counterexample :
    DecimalFixed.priv_mul ⟨10000000000, -19⟩ ⟨10000000000, -19⟩ true = .ok ⟨-11, -19⟩ ∧
    (-11 : Int) ≠ truncTowardZero (10000000000 * 10000000000) (10 ^ 19) := by
  refine ⟨by decide, by decide⟩

/-- C10 as amended: for operands with equal negative exponents no smaller
than `-18` (so that `10 ^ (-exp)` is exact in `i64`), both the
keep-exponent multiply and the keep-exponent divide round an inexact result
by truncation toward zero — the 128-bit intermediate is divided with
truncating integer division — so the two paths use one and the same
rounding rule. -/
theorem c10_rounding_amended (a b r rq : DecimalFixed)
    (hE : a.exponent = b.exponent) (hneg : a.exponent < 0) (hge : -18 ≤ a.exponent) :
    (DecimalFixed.priv_mul a b true = .ok r →
      r.value = truncTowardZero (a.value * b.value) ((10 : Int) ^ (-a.exponent).toNat)) ∧
    (DecimalFixed.priv_div a b true = .ok rq →
      rq.value = truncTowardZero (a.value * (10 : Int) ^ (-a.exponent).toNat) b.value) := by
  have habs : absWrap8 a.exponent = -a.exponent := by
    unfold absWrap8
    rw [if_neg (by omega)]
    omega
  have hu32 : u32ofI8 (absWrap8 a.exponent) = (-a.exponent).toNat := by
    rw [habs]
    unfold u32ofI8
    rw [Int.emod_eq_of_lt (by omega) (by norm_num; omega)]
  have hk : (-a.exponent).toNat < 19 := by omega
  have hfact : wpow 10 (u32ofI8 (absWrap8 a.exponent)) = (10 : Int) ^ (-a.exponent).toNat := by
    rw [hu32]
    exact wpow_ten_small _ hk
  have hfactpos : (0 : Int) < (10 : Int) ^ (-a.exponent).toNat := by positivity
  constructor
  · intro hm
    unfold DecimalFixed.priv_mul at hm
    rw [if_neg (by simp)] at hm
    rw [if_neg (by simp [hE])] at hm
    split at hm
    · exact absurd hm (by simp)
    · next scaled h1 =>
      simp only [hfact] at hm
      rw [if_neg (by omega)] at hm
      rw [if_neg (by omega)] at hm
      split at hm
      · exact absurd hm (by simp)
      · next v h2 =>
        cases hm
        rw [tryFromI64_eq_some h2, checkedMul128_eq_some h1, tdiv_eq_truncTowardZero]
  · intro hd
    unfold DecimalFixed.priv_div at hd
    by_cases hb : b.value = 0
    · rw [if_pos hb] at hd
      exact absurd hd (by simp)
    · rw [if_neg hb] at hd
      rw [if_neg (by simp)] at hd
      rw [if_neg (by simp [hE])] at hd
      simp only [hfact] at hd
      rw [if_neg (by omega)] at hd
      split at hd
      · exact absurd hd (by simp)
      · next scaled h1 =>
        split at hd
        · exact absurd hd (by simp)
        · next v h2 =>
          cases hd
          rw [tryFromI64_eq_some h2, checkedMul128_eq_some h1, tdiv_eq_truncTowardZero]

/-- C10 witness: `0.3 * 0.2` truncates `0.06` down to `0` at exponent `-1`,
and `0.3 / 0.2` truncates `1.5` to `1.5` exactly representable as `15` at
exponent `-1`; both agree with the truncation-toward-zero description. -/
theorem c10_rounding_amended_witness :
    (DecimalFixed.mk 0 (-1)).value =
      truncTowardZero ((3 : Int) * 2) ((10 : Int) ^ (1 : Nat)) ∧
    (DecimalFixed.mk 15 (-1)).value =
      truncTowardZero ((3 : Int) * (10 : Int) ^ (1 : Nat)) 2 := by
  have h := c10_rounding_amended ⟨3, -1⟩ ⟨2, -1⟩ ⟨0, -1⟩ ⟨15, -1⟩ rfl (by decide) (by decide)
  exact ⟨h.1 (by decide), h.2 (by decide)⟩

/-- Characterisation of `splitOnce`: finding a separator splits the input
around its first occurrence. -/
theorem splitOnce_eq_cons {sep : Char} :
    ∀ {s w r : List Char}, splitOnce sep s = (w, some r) → s = w ++ sep :: r := by
  intro s
  induction s with
  | nil =>
    intro w r h
    exact absurd (congrArg Prod.snd h) (by simp [splitOnce])
  | cons c cs ih =>
    intro w r h
    unfold splitOnce at h
    by_cases hc : c = sep
    · rw [if_pos hc] at h
      obtain ⟨h1, h2⟩ := Prod.mk.injEq .. ▸ h
      cases h1
      cases Option.some.inj h2
      simp [hc]
    · rw [if_neg hc] at h
      obtain ⟨h1, h2⟩ := Prod.mk.injEq .. ▸ h
      cases w with
      | nil => exact absurd (congrArg List.length h1) (by simp)
      | cons w0 ws =>
        obtain ⟨hw0, hws⟩ := List.cons.injEq .. ▸ h1
        have := ih (w := ws) (r := r) (by rw [Prod.ext_iff]; exact ⟨hws.symm ▸ rfl, h2⟩)
        rw [List.cons_append, ← hw0, this]

/-- UTF-8 byte length equals character count for ASCII text. -/
theorem utf8Length_ascii :
    ∀ {l : List Char}, (∀ c ∈ l, c.toNat < 0x80) → utf8Length l = l.length := by
  intro l
  induction l with
  | nil => intro; rfl
  | cons c cs ih =>
    intro h
    have hc : utf8CharLen c = 1 := by
      unfold utf8CharLen
      rw [if_pos (h c (List.mem_cons_self c cs))]
    unfold utf8Length at ih ⊢
    simp only [List.map_cons, List.sum_cons, hc, List.length_cons]
    rw [ih (fun d hd => h d (List.mem_cons_of_mem c hd))]
    omega

/-- Byte slicing of ASCII text within bounds is plain `take`. -/
theorem byteTake_ascii :
    ∀ (l : List Char) (n : Nat), (∀ c ∈ l, c.toNat < 0x80) → n ≤ l.length →
      byteTake n l = .ok (l.take n) := by
  intro l
  induction l with
  | nil =>
    intro n _ hn
    have hz : n = 0 := by simp at hn; omega
    rw [hz]
    rfl
  | cons c cs ih =>
    intro n h hn
    cases n with
    | zero => rfl
    | succ m =>
      have hc : utf8CharLen c = 1 := by
        unfold utf8CharLen
        rw [if_pos (h c (List.mem_cons_self c cs))]
      have hm : m ≤ cs.length := by simp at hn; omega
      have hrec := ih m (fun d hd => h d (List.mem_cons_of_mem c hd)) hm
      simp only [byteTake, hc]
      rw [if_pos (by omega)]
      rw [show m + 1 - 1 = m from rfl, hrec]
      rfl

/-- A successful run of the positive digit loop means every scanned character
was a digit. -/
theorem parseDigitsPos_ok_all_digits :
    ∀ (l : List Char) (acc v : Int), parseDigitsPos acc l = .ok v →
      ∀ c ∈ l, c.isDigit = true := by
  intro l
  induction l with
  | nil =>
    intro acc v _ c hc
    exact absurd hc (by simp)
  | cons c cs ih =>
    intro acc v hres d hd
    unfold parseDigitsPos at hres
    by_cases hc : c.isDigit
    · rw [if_pos hc] at hres
      rcases List.mem_cons.1 hd with heq | hmem
      · rw [heq]; exact hc
      · split at hres
        · exact absurd hres (by simp)
        · exact ih _ v hres d hmem
    · rw [if_neg hc] at hres
      exact absurd hres (by simp)

/-- A successful run of the negative digit loop means every scanned character
was a digit. -/
theorem parseDigitsNeg_ok_all_digits :
    ∀ (l : List Char) (acc v : Int), parseDigitsNeg acc l = .ok v →
      ∀ c ∈ l, c.isDigit = true := by
  intro l
  induction l with
  | nil =>
    intro acc v _ c hc
    exact absurd hc (by simp)
  | cons c cs ih =>
    intro acc v hres d hd
    unfold parseDigitsNeg at hres
    by_cases hc : c.isDigit
    · rw [if_pos hc] at hres
      rcases List.mem_cons.1 hd with heq | hmem
      · rw [heq]; exact hc
      · split at hres
        · exact absurd hres (by simp)
        · exact ih _ v hres d hmem
    · rw [if_neg hc] at hres
      exact absurd hres (by simp)

/-- The positive digit loop fails on any input containing a non-digit
character (with whichever error comes first). -/
theorem parseDigitsPos_error_of_nondigit
    (l : List Char) (acc : Int) (h : ∃ c ∈ l, c.isDigit = false) :
    ∃ k, parseDigitsPos acc l = .error k := by
  cases hres : parseDigitsPos acc l with
  | error k => exact ⟨k, rfl⟩
  | ok v =>
    obtain ⟨c, hcmem, hcnd⟩ := h
    have := parseDigitsPos_ok_all_digits l acc v hres c hcmem
    rw [this] at hcnd
    exact absurd hcnd (by simp)

/-- The negative digit loop fails on any input containing a non-digit
character (with whichever error comes first). -/
theorem parseDigitsNeg_error_of_nondigit
    (l : List Char) (acc : Int) (h : ∃ c ∈ l, c.isDigit = false) :
    ∃ k, parseDigitsNeg acc l = .error k := by
  cases hres : parseDigitsNeg acc l with
  | error k => exact ⟨k, rfl⟩
  | ok v =>
    obtain ⟨c, hcmem, hcnd⟩ := h
    have := parseDigitsNeg_ok_all_digits l acc v hres c hcmem
    rw [this] at hcnd
    exact absurd hcnd (by simp)

/-- `parseI64` fails on any input containing a `'.'`. -/
theorem parseI64_error_of_dot {s : List Char} (h : '.' ∈ s) :
    ∃ k, parseI64 s = .error k := by
  cases s with
  | nil => exact absurd h (by simp)
  | cons c cs =>
    rw [show parseI64 (c :: cs) =
        (if c = '+' then
          if cs = [] then Except.error .InvalidDigit else parseDigitsPos 0 cs
        else if c = '-' then
          if cs = [] then Except.error .InvalidDigit else parseDigitsNeg 0 cs
        else parseDigitsPos 0 (c :: cs)) from rfl]
    by_cases hplus : c = '+'
    · rw [if_pos hplus]
      have hmem : '.' ∈ cs := by
        rcases List.mem_cons.1 h with heq | hm
        · rw [hplus] at heq
          exact absurd heq (by decide)
        · exact hm
      have hne : cs ≠ [] := by
        intro hnil
        rw [hnil] at hmem
        exact absurd hmem (by simp)
      rw [if_neg hne]
      exact parseDigitsPos_error_of_nondigit cs 0 ⟨'.', hmem, by decide⟩
    · rw [if_neg hplus]
      by_cases hminus : c = '-'
      · rw [if_pos hminus]
        have hmem : '.' ∈ cs := by
          rcases List.mem_cons.1 h with heq | hm
          · rw [hminus] at heq
            exact absurd heq (by decide)
          · exact hm
        have hne : cs ≠ [] := by
          intro hnil
          rw [hnil] at hmem
          exact absurd hmem (by simp)
        rw [if_neg hne]
        exact parseDigitsNeg_error_of_nondigit cs 0 ⟨'.', hmem, by decide⟩
      · rw [if_neg hminus]
        exact parseDigitsPos_error_of_nondigit (c :: cs) 0 ⟨'.', h, by decide⟩

/-- C7 counterexample. The claim says every string with more than one `'.'`
fails to parse for ANY negative exponent. With exponent `-1` the string
`"1.2.3"` parses successfully: the fractional text `"2.3"` is longer than
one byte, so it is truncated to `"2"` — the second dot is sliced away —
and the result is `1.2` (`⟨12, -1⟩`). -/
theorem c7_extra_dot_parses_counterexample :
    DecimalFixed.parse_static_exp ['1', '.', '2', '.', '3'] (some (-1)) = .ok ⟨12, -1⟩ ∧
    (['1', '.', '2', '.', '3'] : List Char).count '.' = 2 := by
  refine ⟨by decide, by decide⟩

/-- C7 as amended: for a negative exponent in `(-128, 0)` and an ASCII input
split by its first `'.'` into a whole part and a fractional part, if another
`'.'` occurs among the first `-exp` characters of the fractional part (so
that it survives the truncation/padding to `-exp` digits), then
`parse_static_exp` returns an error. (Dots beyond the first `-exp`
fractional characters are truncated away and such strings can parse
successfully, as the counterexample shows.) -/
theorem c7_extra_dot_amended (s : List Char) (exp : Int) (w frac : List Char)
    (h1 : -128 < exp) (h2 : exp < 0)
    (hascii : ∀ c ∈ s, c.toNat < 0x80)
    (hsplit : splitOnce '.' s = (w, some frac))
    (hdot : '.' ∈ frac.take (-exp).toNat) :
    (DecimalFixed.parse_static_exp s (some exp)).isErr = true := by
  have hs_eq : s = w ++ '.' :: frac := splitOnce_eq_cons hsplit
  have hne : s ≠ [] := by rw [hs_eq]; simp
  have hfr_ascii : ∀ c ∈ frac, c.toNat < 0x80 := by
    intro c hc
    exact hascii c (by rw [hs_eq]; exact List.mem_append_right _ (List.mem_cons_of_mem _ hc))
  have hflen : utf8Length frac = frac.length := utf8Length_ascii hfr_ascii
  have hw8 : wrap8 (-exp) = -exp := by
    unfold wrap8
    rw [Int.emod_eq_of_lt (by omega) (by norm_num; omega)]
    omega
  have hminus : (wrap8 (-exp) % 2 ^ 32).toNat = (-exp).toNat := by
    rw [hw8, Int.emod_eq_of_lt (by omega) (by norm_num; omega)]
  have hdotfrac : '.' ∈ frac := List.take_subset _ _ hdot
  have hfrne : frac ≠ [] := by
    intro h0
    rw [h0] at hdotfrac
    exact absurd hdotfrac (by simp)
  have hproc : (∃ e, procFrac frac (-exp).toNat = .err e) ∨
      (∃ processed, procFrac frac (-exp).toNat = .ok processed ∧ '.' ∈ processed) := by
    unfold procFrac
    by_cases hq1 : utf8Length frac = (-exp).toNat
    · right
      exact ⟨frac, by rw [if_pos hq1], hdotfrac⟩
    · rw [if_neg hq1]
      by_cases hq2 : (-exp).toNat < utf8Length frac
      · right
        rw [if_pos hq2]
        exact ⟨frac.take (-exp).toNat,
          byteTake_ascii frac _ hfr_ascii (by omega), hdot⟩
      · rw [if_neg hq2]
        by_cases hq3 : PARSING_BUFFER_SIZE < utf8Length frac
        · left
          exact ⟨_, by rw [if_pos hq3]⟩
        · rw [if_neg hq3]
          by_cases hq4 : PARSING_BUFFER_SIZE < (-exp).toNat
          · left
            exact ⟨_, by rw [if_pos hq4]⟩
          · rw [if_neg hq4]
            exact Or.inr ⟨_, rfl, List.mem_append_left _ hdotfrac⟩
  unfold DecimalFixed.parse_static_exp
  simp only [Option.getD_some]
  rw [if_neg (by omega : ¬ (0 : Int) ≤ exp)]
  rw [if_neg hne]
  simp only [hsplit, hminus]
  split
  · rfl
  · split
    · rfl
    · rw [if_neg hfrne]
      split
      · rfl
      · next heq =>
        rcases hproc with ⟨e, he⟩ | ⟨p, hp, _⟩
        · rw [heq] at he
          exact absurd he (by simp)
        · rw [heq] at hp
          exact absurd hp (by simp)
      · next processed heq =>
        rcases hproc with ⟨e, he⟩ | ⟨p, hp, hpd⟩
        · rw [heq] at he
          exact absurd he (by simp)
        · rw [heq] at hp
          cases Res.ok.inj hp
          obtain ⟨k2, hk2⟩ := parseI64_error_of_dot hpd
          split
          · rfl
          · next v2 heq2 =>
            rw [hk2] at heq2
            exact absurd heq2 (by simp)

/-- C7 witness: `"1.2.3"` at the default exponent `-9`: the second dot is
within the first nine fractional characters, and parsing fails. -/
theorem c7_extra_dot_amended_witness :
    (DecimalFixed.parse_static_exp ['1', '.', '2', '.', '3'] (some (-9))).isErr = true :=
  c7_extra_dot_amended ['1', '.', '2', '.', '3'] (-9) ['1'] ['2', '.', '3']
    (by decide) (by decide) (by decide) (by decide) (by decide)
